import Mathlib

/-!
Verification of the stream driver and source-block cache of a delta-compression
codec wrapper (src/stream.rs). The codec engine itself is an external C
collaborator reached through FFI bindings; everything else is translated
directly from the Rust source: the source-block cache (SrcBuffer with fetch
and getblk, plus their async twins), the driver state (ProcessState with
read_input and write_output), and the pump loop (process / process_async).

Modelling conventions:
- Bytes are Nat, byte buffers are List Nat.
- Readers (io::Read / AsyncRead) are modelled as the list of bytes remaining,
  with read filling min(buffer space, bytes remaining) bytes, which is the
  behaviour of the in-memory readers the crate is exercised with; read errors
  are therefore absent from the model.
- The BTreeMap cache is modelled as an association list sorted by key in
  ascending order, matching BTreeMap iteration order.
- Unbounded Rust loops carry an explicit fuel argument; every call site
  passes fuel that provably suffices, so fuel exhaustion is unreachable.
- The panic in getblk (invalid blkno) is modelled as an error value that
  aborts the pump, as the unwinding panic does.
- The pump loop additionally returns the list of I/O actions performed and
  the number of block fetches triggered, as pure instrumentation.
-/

namespace Xd3

/-- One fetched block of the source stream: `len` bytes actually read
(at most the block size) and the raw block buffer. -/
structure CacheEntry where
  len : Nat
  buf : List Nat
deriving DecidableEq

/-- The block cache: an association list from block index to entry, kept
sorted by key in ascending order (the iteration order of Rust BTreeMap). -/
abbrev Cache := List (Nat × CacheEntry)

/-- Lookup of a block index in the cache (BTreeMap::get). -/
def cacheFind : Cache → Nat → Option CacheEntry
  | [], _ => none
  | (k, e) :: rest, k2 => if k2 = k then some e else cacheFind rest k2

/-- Keyed insert preserving ascending key order, replacing an existing
binding (BTreeMap::insert). -/
def insertSorted : Cache → Nat → CacheEntry → Cache
  | [], k, e => [(k, e)]
  | (k2, e2) :: rest, k, e =>
    if k < k2 then (k, e) :: (k2, e2) :: rest
    else if k = k2 then (k, e) :: rest
    else (k2, e2) :: insertSorted rest k e

/-- Remove the entry with the least key, returning its buffer and the rest
of the cache. In the Rust source this is the for-loop grabbing the first
BTreeMap key followed by remove+unwrap; the guard at the only call site
ensures the cache is nonempty, so the empty case is unreachable. -/
def evictMin : Cache → List Nat × Cache
  | [] => ([], [])
  | (_, e) :: rest => (e.buf, rest)

/-- The fields of the shared binding::xd3_source descriptor that stream.rs
reads or writes. `curblk` holds the bytes the current-block pointer and
`onblk` designate. -/
structure Xd3Source where
  blksize : Nat
  max_winsize : Nat
  curblkno : Nat
  getblkno : Nat
  curblk : List Nat
  onblk : Nat
  eof_known : Bool
  max_blkno : Nat
  onlastblk : Nat
deriving DecidableEq

/-- The configuration fields of Xd3Config that the modelled code consults. -/
structure Xd3Config where
  winsize : Nat
  sprevsz : Nat
  source_window_size : Nat
deriving DecidableEq

/-- Rust u32::next_power_of_two: the least power of two that is at least
the argument, and 1 on input 0. -/
def nextPowTwo (n : Nat) : Nat :=
  if n ≤ 1 then 1 else 2 ^ Nat.clog 2 n

/-- Xd3Config::new with the crate defaults (XD3_DEFAULT_WINSIZE = 2^23,
XD3_DEFAULT_SPREVSZ = 2^18, XD3_DEFAULT_SRCWINSZ = 2^26). -/
def Xd3Config.new : Xd3Config :=
  { winsize := 2 ^ 23, sprevsz := 2 ^ 18, source_window_size := 2 ^ 26 }

/-- Xd3Config::window_size builder. -/
def Xd3Config.window_size (cfg : Xd3Config) (w : Nat) : Xd3Config :=
  { cfg with winsize := nextPowTwo w }

/-- Xd3Config::source_window_size builder. -/
def Xd3Config.sourceWindowSize (cfg : Xd3Config) (s : Nat) : Xd3Config :=
  { cfg with source_window_size := nextPowTwo s }

/-- SrcBuffer: the source-block cache. `read` is the underlying source
reader, modelled as the bytes it has not yet delivered; `block_offset` is
the number of blocks fetched so far (the next index to assign). -/
structure SrcBuffer where
  src : Xd3Source
  read : List Nat
  read_len : Nat
  eof_known : Bool
  block_offset : Nat
  block_len : Nat
  cache : Cache
deriving DecidableEq

/-- SrcBuffer::new: block size is the source window size divided by the
fixed block count 32; the xd3_source record starts zeroed except for
blksize and max_winsize. -/
def SrcBuffer.new (cfg : Xd3Config) (read : List Nat) : SrcBuffer :=
  let block_count := 32
  let max_winsize := cfg.source_window_size
  let blksize := max_winsize / block_count
  { src :=
      { blksize := blksize, max_winsize := max_winsize,
        curblkno := 0, getblkno := 0, curblk := [], onblk := 0,
        eof_known := false, max_blkno := 0, onlastblk := 0 }
    read := read
    read_len := 0
    eof_known := false
    block_offset := 0
    block_len := blksize
    cache := [] }

/-- Overwrite `l` into `buf` starting at position `i` (the effect of
reading into the slice buf[i..]). -/
def writeAt (buf : List Nat) (i : Nat) (l : List Nat) : List Nat :=
  buf.take i ++ l ++ buf.drop (i + l.length)

/-- The fill loop inside SrcBuffer::fetch: repeatedly read into the unfilled
tail of `buf` until the buffer is full or a zero-length read signals end of
data. Returns (reader remainder, filled buffer, bytes read, eof hit).
Each productive iteration strictly increases `read_len` toward
`buf.length`, so fuel `buf.length + 1` always reaches a return; the fuel 0
case is unreachable junk. -/
def fillLoop : Nat → List Nat → List Nat → Nat → List Nat × List Nat × Nat × Bool
  | 0, read, buf, read_len => (read, buf, read_len, false)
  | fuel + 1, read, buf, read_len =>
    if read_len = buf.length then (read, buf, read_len, false)
    else
      let chunk := read.take (buf.length - read_len)
      if chunk.length = 0 then (read, buf, read_len, true)
      else fillLoop fuel (read.drop chunk.length) (writeAt buf read_len chunk)
        (read_len + chunk.length)

/-- SrcBuffer::fetch: pick a buffer (recycling the oldest cache entry when
the cache holds block_offset + 1 entries, else allocating a zeroed
block-sized one), fill it from the reader, record eof on a short fill, and
insert the result at index block_offset. -/
def SrcBuffer.fetch (b : SrcBuffer) : SrcBuffer :=
  let bufCache :=
    if b.cache.length = b.block_offset + 1 then evictMin b.cache
    else (List.replicate b.block_len 0, b.cache)
  let r := fillLoop (bufCache.fst.length + 1) b.read bufCache.fst 0
  { b with
    read := r.fst
    eof_known := b.eof_known || r.snd.snd.snd
    cache := insertSorted bufCache.snd b.block_offset ⟨r.snd.snd.fst, r.snd.fst⟩
    block_offset := b.block_offset + 1 }

/-- The abort cause of SrcBuffer::getblk: the panic taken when the engine
requests a block index below the span retained by the cache. -/
inductive GetblkError where
  | invalidBlkno
  | outOfFuel
deriving DecidableEq

/-- The lookup-or-fetch loop of SrcBuffer::getblk: fetch forward until the
requested index is cached; a missing index below block_offset is the fatal
panic. Also counts the fetches triggered. Each iteration either returns or
increments block_offset, so fuel `blkno + 2` suffices from any state. -/
def SrcBuffer.getblkLoop : Nat → SrcBuffer → Nat →
    Except GetblkError (SrcBuffer × CacheEntry × Nat)
  | 0, _, _ => .error .outOfFuel
  | fuel + 1, b, blkno =>
    match cacheFind b.cache blkno with
    | some entry => .ok (b, entry, 0)
    | none =>
      if blkno < b.block_offset then .error .invalidBlkno
      else
        match SrcBuffer.getblkLoop fuel b.fetch blkno with
        | .ok (b2, entry, n) => .ok (b2, entry, n + 1)
        | .error e => .error e

/-- SrcBuffer::getblk: resolve the block the engine requested (src.getblkno)
through the cache, then publish it through the descriptor: current block
number, pointer and length, plus the eof-dependent max_blkno and onlastblk
fields. Returns the number of fetches triggered alongside the new state. -/
def SrcBuffer.getblk (b : SrcBuffer) : Except GetblkError (SrcBuffer × Nat) :=
  let blkno := b.src.getblkno
  match SrcBuffer.getblkLoop (blkno + 2) b blkno with
  | .error e => .error e
  | .ok (b2, entry, n) =>
    let buf_len := entry.len
    let data := entry.buf.take buf_len
    let src := b2.src
    let src :=
      { src with
        curblkno := src.getblkno
        curblk := data
        onblk := buf_len
        eof_known := b2.eof_known
        max_blkno := if b2.eof_known = false then src.getblkno else b2.block_offset - 1
        onlastblk := if b2.eof_known = false then buf_len
          else b2.read_len % src.blksize }
    .ok ({ b2 with src := src }, n)

/-- SrcBuffer::fetch_async: textually the same algorithm as fetch with the
read suspension point erased. -/
def SrcBuffer.fetch_async (b : SrcBuffer) : SrcBuffer :=
  let bufCache :=
    if b.cache.length = b.block_offset + 1 then evictMin b.cache
    else (List.replicate b.block_len 0, b.cache)
  let r := fillLoop (bufCache.fst.length + 1) b.read bufCache.fst 0
  { b with
    read := r.fst
    eof_known := b.eof_known || r.snd.snd.snd
    cache := insertSorted bufCache.snd b.block_offset ⟨r.snd.snd.fst, r.snd.fst⟩
    block_offset := b.block_offset + 1 }

/-- The lookup-or-fetch loop of SrcBuffer::getblk_async. -/
def SrcBuffer.getblkLoop_async : Nat → SrcBuffer → Nat →
    Except GetblkError (SrcBuffer × CacheEntry × Nat)
  | 0, _, _ => .error .outOfFuel
  | fuel + 1, b, blkno =>
    match cacheFind b.cache blkno with
    | some entry => .ok (b, entry, 0)
    | none =>
      if blkno < b.block_offset then .error .invalidBlkno
      else
        match SrcBuffer.getblkLoop_async fuel b.fetch_async blkno with
        | .ok (b2, entry, n) => .ok (b2, entry, n + 1)
        | .error e => .error e

/-- SrcBuffer::getblk_async: same algorithm as getblk over the async fetch. -/
def SrcBuffer.getblk_async (b : SrcBuffer) : Except GetblkError (SrcBuffer × Nat) :=
  let blkno := b.src.getblkno
  match SrcBuffer.getblkLoop_async (blkno + 2) b blkno with
  | .error e => .error e
  | .ok (b2, entry, n) =>
    let buf_len := entry.len
    let data := entry.buf.take buf_len
    let src := b2.src
    let src :=
      { src with
        curblkno := src.getblkno
        curblk := data
        onblk := buf_len
        eof_known := b2.eof_known
        max_blkno := if b2.eof_known = false then src.getblkno else b2.block_offset - 1
        onlastblk := if b2.eof_known = false then buf_len
          else b2.read_len % src.blksize }
    .ok ({ b2 with src := src }, n)

/-- The closed set of engine return values matched by the pump loop
(binding::xd3_rvalues as consumed in stream.rs). -/
inductive Signal where
  | XD3_INPUT
  | XD3_OUTPUT
  | XD3_GETSRCBLK
  | XD3_GOTHEADER
  | XD3_WINSTART
  | XD3_WINFINISH
  | XD3_TOOFARBACK
  | XD3_INTERNAL
  | XD3_INVALID
  | XD3_INVALID_INPUT
  | XD3_NOSECOND
  | XD3_UNIMPLEMENTED
deriving DecidableEq

/-- Whether a signal is one of the terminal error signals handled by the
final arm of the pump loop match. -/
def Signal.isErr : Signal → Bool
  | .XD3_TOOFARBACK | .XD3_INTERNAL | .XD3_INVALID
  | .XD3_INVALID_INPUT | .XD3_NOSECOND | .XD3_UNIMPLEMENTED => true
  | _ => false

/-- The Rust Debug rendering of a signal, as produced by the format string
of the error branch. -/
def Signal.debugName : Signal → String
  | .XD3_INPUT => "XD3_INPUT"
  | .XD3_OUTPUT => "XD3_OUTPUT"
  | .XD3_GETSRCBLK => "XD3_GETSRCBLK"
  | .XD3_GOTHEADER => "XD3_GOTHEADER"
  | .XD3_WINSTART => "XD3_WINSTART"
  | .XD3_WINFINISH => "XD3_WINFINISH"
  | .XD3_TOOFARBACK => "XD3_TOOFARBACK"
  | .XD3_INTERNAL => "XD3_INTERNAL"
  | .XD3_INVALID => "XD3_INVALID"
  | .XD3_INVALID_INPUT => "XD3_INVALID_INPUT"
  | .XD3_NOSECOND => "XD3_NOSECOND"
  | .XD3_UNIMPLEMENTED => "XD3_UNIMPLEMENTED"

/-- The fields of binding::xd3_stream that stream.rs exchanges with the
engine: the XD3_FLUSH flag bit, the input window (next_in points at the
driver input buffer, avail_in bytes of it are valid) and the output span
(avail_out bytes at next_out). -/
structure StreamState where
  flagsFlush : Bool
  next_in : List Nat
  avail_in : Nat
  next_out : List Nat
  avail_out : Nat
deriving DecidableEq

/-- ProcessState: the driver state owning the engine stream, the source
block cache and the reusable input buffer. -/
structure ProcessState where
  stream : StreamState
  src_buf : SrcBuffer
  input_buf : List Nat
  eof : Bool
deriving DecidableEq

/-- ProcessState::new. The engine calls xd3_config_stream and
xd3_set_source are external; per the spec they only install the
configuration and descriptor, modelled as always succeeding. The stream
record starts zeroed and the input buffer is allocated at the configured
window size. -/
def ProcessState.new (cfg : Xd3Config) (src : List Nat) : ProcessState :=
  { stream :=
      { flagsFlush := false, next_in := [], avail_in := 0,
        next_out := [], avail_out := 0 }
    src_buf := SrcBuffer.new cfg src
    input_buf := List.replicate cfg.winsize 0
    eof := false }

/-- ProcessState::read_input: read up to one window of target bytes into
the input buffer; a zero-length read sets the XD3_FLUSH flag and the local
eof flag; then publish the buffer and length to the engine (next_in,
avail_in). Returns the reader remainder alongside the new state. -/
def ProcessState.read_input (st : ProcessState) (input : List Nat) :
    ProcessState × List Nat :=
  let read_size := min st.input_buf.length input.length
  let input_buf := writeAt st.input_buf 0 (input.take read_size)
  let stream := st.stream
  let stream :=
    if read_size = 0 then { stream with flagsFlush := true } else stream
  let eof := if read_size = 0 then true else st.eof
  let stream := { stream with next_in := input_buf, avail_in := read_size }
  ({ st with stream := stream, input_buf := input_buf, eof := eof },
   input.drop read_size)

/-- ProcessState::write_output: append the engine-reported output span to
the sink, then mark it consumed (avail_out = 0). -/
def ProcessState.write_output (st : ProcessState) (out : List Nat) :
    ProcessState × List Nat :=
  let out_data := st.stream.next_out.take st.stream.avail_out
  let out := out ++ out_data
  ({ st with stream := { st.stream with avail_out := 0 } }, out)

/-- ProcessState::read_input_async: same algorithm with the suspension
point erased. -/
def ProcessState.read_input_async (st : ProcessState) (input : List Nat) :
    ProcessState × List Nat :=
  let read_size := min st.input_buf.length input.length
  let input_buf := writeAt st.input_buf 0 (input.take read_size)
  let stream := st.stream
  let stream :=
    if read_size = 0 then { stream with flagsFlush := true } else stream
  let eof := if read_size = 0 then true else st.eof
  let stream := { stream with next_in := input_buf, avail_in := read_size }
  ({ st with stream := stream, input_buf := input_buf, eof := eof },
   input.drop read_size)

/-- ProcessState::write_output_async: same algorithm with the suspension
point erased. -/
def ProcessState.write_output_async (st : ProcessState) (out : List Nat) :
    ProcessState × List Nat :=
  let out_data := st.stream.next_out.take st.stream.avail_out
  let out := out ++ out_data
  ({ st with stream := { st.stream with avail_out := 0 } }, out)

/-- The I/O actions the pump performs, recorded for specification purposes:
reading target bytes (count read), writing an output span, resolving a
source block, and the final sink flush. -/
inductive Action where
  | readTarget : Nat → Action
  | writeOut : List Nat → Action
  | getSrcBlk : Nat → Action
  | flushOut : Action
deriving DecidableEq

/-- ProcessMode: encode or decode, selecting the engine entry point. -/
inductive ProcessMode where
  | Encode
  | Decode
deriving DecidableEq

/-- Prepend an action performed now to the trace of a pump continuation. -/
def mapAction (a : Action) :
    Option (Except String (List Nat) × List Action) →
    Option (Except String (List Nat) × List Action)
  | none => none
  | some (r, acts) => some (r, a :: acts)

/-- The pump loop shared by process and process_async, parameterised over
the engine: `step` is one advance call, taking and returning the engine
state `e` and the shared stream fields. Returns the sink contents on
success, the error message on abort, and the trace of I/O actions; `none`
means the fuel ran out before the loop finished. This is the loop of
fn process in stream.rs with the engine left abstract. -/
def processLoop {E : Type} (step : E → StreamState → Signal × E × StreamState) :
    Nat → E → ProcessState → List Nat → List Nat →
    Option (Except String (List Nat) × List Action)
  | 0, _, _, _, _ => none
  | fuel + 1, e, st, input, out =>
    let res := step e st.stream
    let st := { st with stream := res.snd.snd }
    match res.fst with
    | .XD3_INPUT =>
      if st.eof then some (.ok out, [.flushOut])
      else
        let p := st.read_input input
        mapAction (.readTarget p.fst.stream.avail_in)
          (processLoop step fuel res.snd.fst p.fst p.snd out)
    | .XD3_OUTPUT =>
      let p := st.write_output out
      mapAction (.writeOut (st.stream.next_out.take st.stream.avail_out))
        (processLoop step fuel res.snd.fst p.fst input p.snd)
    | .XD3_GETSRCBLK =>
      match st.src_buf.getblk with
      | .error _ => some (.error "invalid blkno", [])
      | .ok (sb, _) =>
        mapAction (.getSrcBlk st.src_buf.src.getblkno)
          (processLoop step fuel res.snd.fst { st with src_buf := sb } input out)
    | .XD3_GOTHEADER => processLoop step fuel res.snd.fst st input out
    | .XD3_WINSTART => processLoop step fuel res.snd.fst st input out
    | .XD3_WINFINISH => processLoop step fuel res.snd.fst st input out
    | err => some (.error err.debugName, [])

/-- The pump loop of fn process_async: identical control flow, with the
suspend-capable read, write and block-fetch operations. -/
def processLoop_async {E : Type}
    (step : E → StreamState → Signal × E × StreamState) :
    Nat → E → ProcessState → List Nat → List Nat →
    Option (Except String (List Nat) × List Action)
  | 0, _, _, _, _ => none
  | fuel + 1, e, st, input, out =>
    let res := step e st.stream
    let st := { st with stream := res.snd.snd }
    match res.fst with
    | .XD3_INPUT =>
      if st.eof then some (.ok out, [.flushOut])
      else
        let p := st.read_input_async input
        mapAction (.readTarget p.fst.stream.avail_in)
          (processLoop_async step fuel res.snd.fst p.fst p.snd out)
    | .XD3_OUTPUT =>
      let p := st.write_output_async out
      mapAction (.writeOut (st.stream.next_out.take st.stream.avail_out))
        (processLoop_async step fuel res.snd.fst p.fst input p.snd)
    | .XD3_GETSRCBLK =>
      match st.src_buf.getblk_async with
      | .error _ => some (.error "invalid blkno", [])
      | .ok (sb, _) =>
        mapAction (.getSrcBlk st.src_buf.src.getblkno)
          (processLoop_async step fuel res.snd.fst { st with src_buf := sb } input out)
    | .XD3_GOTHEADER => processLoop_async step fuel res.snd.fst st input out
    | .XD3_WINSTART => processLoop_async step fuel res.snd.fst st input out
    | .XD3_WINFINISH => processLoop_async step fuel res.snd.fst st input out
    | err => some (.error err.debugName, [])

/-- An engine that replays a predetermined list of signals and leaves the
stream untouched; used to specify how the pump reacts to each signal
independently of the engine internals (the driver never inspects codec
internals, only the returned signal). An exhausted script keeps returning
XD3_INPUT. -/
def scriptStep : List Signal → StreamState → Signal × List Signal × StreamState
  | [], s => (.XD3_INPUT, [], s)
  | sig :: rest, s => (sig, rest, s)

/-- Modelled from the spec: the codec engine entry points xd3_encode_input
and xd3_decode_input live in the external C library behind the binding
module and are not part of src/. Per spec section 4.2 the engine is a
pull-based state machine that consumes the input window and produces an
output span, signalling XD3_INPUT when it needs input and XD3_OUTPUT when
output is pending. It is instantiated here as the minimal engine honouring
that interface: a copy codec whose delta stream is the target itself, for
which encode and decode coincide and which never requests a source block. -/
def engineAdvance (_ : ProcessMode) :
    Unit → StreamState → Signal × Unit × StreamState :=
  fun _ s =>
    if s.avail_in = 0 then (.XD3_INPUT, (), s)
    else
      (.XD3_OUTPUT, (),
        { s with next_out := s.next_in.take s.avail_in,
                 avail_out := s.avail_in, avail_in := 0 })

/-- fn process: build the driver state, run the pump loop in the chosen
mode, flush the sink on success. -/
def process (cfg : Xd3Config) (mode : ProcessMode) (fuel : Nat)
    (input src : List Nat) :
    Option (Except String (List Nat) × List Action) :=
  processLoop (engineAdvance mode) fuel () (ProcessState.new cfg src) input []

/-- fn process_async: the cooperatively-suspending variant. -/
def process_async (cfg : Xd3Config) (mode : ProcessMode) (fuel : Nat)
    (input src : List Nat) :
    Option (Except String (List Nat) × List Action) :=
  processLoop_async (engineAdvance mode) fuel () (ProcessState.new cfg src) input []

/-- The entry the cache is expected to hold for block `k` of a source
stream `S` with block size `B`: the bytes of `S` between positions `k*B`
and `(k+1)*B`, padded with the zeros of the freshly allocated buffer. -/
def expectedEntry (S : List Nat) (B k : Nat) : CacheEntry :=
  { len := min B (S.length - k * B)
    buf := (S.drop (k * B)).take B
      ++ List.replicate (B - min B (S.length - k * B)) 0 }

/-- The cache contents after the first `n` blocks of `S` have been
fetched. -/
def expectedCache (S : List Nat) (B n : Nat) : Cache :=
  (List.range n).map (fun k => (k, expectedEntry S B k))

/-- The reachable-state invariant of the source-block cache, relative to
the source stream `S` it was created over: the reader stands at the byte
position following the fetched blocks, eof has been observed exactly when
the fetched region covers all of `S`, the cache holds exactly blocks
`0..block_offset-1` with their expected contents, and the `read_len`
field still has its initial value (the source never assigns it). -/
def Inv (S : List Nat) (b : SrcBuffer) : Prop :=
  b.read = S.drop (b.block_offset * b.block_len) ∧
  b.eof_known = decide (S.length < b.block_offset * b.block_len) ∧
  b.cache = expectedCache S b.block_len b.block_offset ∧
  b.read_len = 0

/-- A small configuration for concrete runs: window of 2 bytes, source
window of 64 bytes, hence a block size of 64 / 32 = 2 bytes. -/
def cfgEx : Xd3Config := { winsize := 2, sprevsz := 4, source_window_size := 64 }

/-- A fresh source-block cache over the 3-byte source stream [1, 2, 3]
(block size 2: blocks [1, 2] and the short final block [3]). -/
def srcBufEx : SrcBuffer := SrcBuffer.new cfgEx [1, 2, 3]

/-- The same cache with the engine requesting block index 1. -/
def srcBufExReq1 : SrcBuffer :=
  { srcBufEx with src := { srcBufEx.src with getblkno := 1 } }

/-- A cache state whose block 0 is missing although the fetch counter has
passed it: the state the fatal low-index check guards against. -/
def srcBufGap : SrcBuffer := { srcBufEx with block_offset := 1 }

/-- A cache state holding block_offset + 1 entries, triggering the
buffer-recycling branch of fetch on the next call. -/
def srcBufFull : SrcBuffer :=
  { srcBufEx with
    block_offset := 2
    cache := [(0, ⟨2, [7, 8]⟩), (5, ⟨2, [1, 2]⟩), (6, ⟨0, [0, 0]⟩)] }

/-- A fresh driver state over empty streams. -/
def pstEx : ProcessState := ProcessState.new cfgEx []

/-- The same driver state after end-of-target has been observed. -/
def pstExEof : ProcessState := { pstEx with eof := true }

/-- A driver state owning the gapped cache state. -/
def pstGap : ProcessState := { pstEx with src_buf := srcBufGap }

/-! Helper lemmas about the fill loop and the cache representation. -/

theorem writeAt_zero (buf l : List Nat) : writeAt buf 0 l = l ++ buf.drop l.length := by
  simp [writeAt]

theorem writeAt_length (buf l : List Nat) (i : Nat) (h : i + l.length ≤ buf.length) :
    (writeAt buf i l).length = buf.length := by
  simp [writeAt]
  omega

/-- Net effect of the fill loop from an arbitrary fill position, for the
deterministic in-memory reader: it moves up to the remaining buffer space
of bytes from the reader into the buffer, leaves the rest of the buffer
untouched, and reports end of data exactly when the reader had fewer bytes
than the remaining space. -/
theorem fillLoop_go (fuel : Nat) : ∀ (read buf : List Nat) (read_len : Nat),
    read_len ≤ buf.length → buf.length - read_len + 1 ≤ fuel →
    fillLoop fuel read buf read_len =
      (read.drop (buf.length - read_len),
       buf.take read_len ++ read.take (buf.length - read_len)
         ++ buf.drop (read_len + min (buf.length - read_len) read.length),
       read_len + min (buf.length - read_len) read.length,
       decide (read.length < buf.length - read_len)) := by
  induction fuel with
  | zero => intro read buf read_len h1 h2; omega
  | succ fuel ih =>
    intro read buf read_len h1 h2
    simp only [fillLoop]
    by_cases hfull : read_len = buf.length
    · rw [if_pos hfull, hfull]
      simp
    · rw [if_neg hfull]
      have hspace : 0 < buf.length - read_len := by omega
      by_cases hz : (read.take (buf.length - read_len)).length = 0
      · rw [if_pos hz]
        have hr0 : read.length = 0 := by
          simp only [List.length_take] at hz; omega
        rcases List.length_eq_zero.mp hr0
        have hd : decide (([] : List Nat).length < buf.length - read_len) = true := by
          simp only [decide_eq_true_eq, List.length_nil]; omega
        simp [hd, List.take_append_drop]
        omega
      · rw [if_neg hz]
        have hc : (read.take (buf.length - read_len)).length
            = min (buf.length - read_len) read.length := by
          rw [List.length_take]
        set c := min (buf.length - read_len) read.length with hcdef
        have hcpos : 0 < c := by omega
        have hcle : c ≤ buf.length - read_len := by
          rw [hcdef]; exact Nat.min_le_left _ _
        have hcler : c ≤ read.length := by
          rw [hcdef]; exact Nat.min_le_right _ _
        have hcases : c = buf.length - read_len ∨ c = read.length := by
          rw [hcdef]
          rcases Nat.le_total (buf.length - read_len) read.length with hle | hle
          · exact Or.inl (Nat.min_eq_left hle)
          · exact Or.inr (Nat.min_eq_right hle)
        have htakec : read.take (buf.length - read_len) = read.take c := by
          rcases hcases with h | h
          · rw [h]
          · rw [h, List.take_of_length_le (by omega), List.take_length]
        have hlenc : (read.take c).length = c := by
          rw [List.length_take, Nat.min_eq_left hcler]
        have hnewlen : (writeAt buf read_len (read.take (buf.length - read_len))).length
            = buf.length := writeAt_length _ _ _ (by rw [hc]; omega)
        have hdroplen : (read.drop c).length = read.length - c := by simp
        have hwa : writeAt buf read_len (read.take (buf.length - read_len))
            = (buf.take read_len ++ read.take c) ++ buf.drop (read_len + c) := by
          rw [writeAt, htakec, hlenc, List.append_assoc]
        have hprefixlen : (buf.take read_len ++ read.take c).length = read_len + c := by
          rw [List.length_append, List.length_take, Nat.min_eq_left h1, hlenc]
        have hmin0 : min (buf.length - (read_len + c)) (read.length - c) = 0 := by
          rcases hcases with h | h
          · have h0 : buf.length - (read_len + c) = 0 := by omega
            rw [h0, Nat.zero_min]
          · have h0 : read.length - c = 0 := by omega
            rw [h0, Nat.min_zero]
        have hmid : read.take (buf.length - read_len)
            = read.take c ++ (read.drop c).take (buf.length - (read_len + c)) := by
          rw [← List.take_add]
          congr 1
          omega
        rw [hc, ih _ _ _ (by rw [hnewlen]; omega) (by rw [hnewlen]; omega), hnewlen,
          hdroplen, hmin0]
        simp only [Prod.mk.injEq]
        refine ⟨?_, ?_, ?_, ?_⟩
        · rw [List.drop_drop]
          congr 1
          omega
        · rw [hwa, List.take_left' hprefixlen, Nat.add_zero, List.drop_left' hprefixlen]
          rw [hmid, ← List.append_assoc]
        · omega
        · apply decide_eq_decide.mpr
          rcases hcases with h | h <;> omega

/-- Net effect of one fill-loop run started at position 0 with the fuel the
fetch functions pass. -/
theorem fillLoop_spec (read buf : List Nat) :
    fillLoop (buf.length + 1) read buf 0 =
      (read.drop buf.length,
       read.take buf.length ++ buf.drop (min buf.length read.length),
       min buf.length read.length,
       decide (read.length < buf.length)) := by
  have := fillLoop_go (buf.length + 1) read buf 0 (by omega) (by omega)
  simpa using this

theorem insertSorted_of_lt (c : Cache) (k : Nat) (e : CacheEntry)
    (h : ∀ p ∈ c, p.1 < k) : insertSorted c k e = c ++ [(k, e)] := by
  induction c with
  | nil => rfl
  | cons hd tl ih =>
    have hhd : hd.1 < k := h hd (List.mem_cons_self _ _)
    rw [insertSorted]
    rw [if_neg (by omega), if_neg (by omega)]
    rw [ih (fun p hp => h p (List.mem_cons_of_mem _ hp)), List.cons_append]

theorem cacheFind_append_of_some (c d : Cache) (k : Nat) (e : CacheEntry)
    (h : cacheFind c k = some e) : cacheFind (c ++ d) k = some e := by
  induction c with
  | nil => simp [cacheFind] at h
  | cons hd tl ih =>
    rw [cacheFind] at h
    rw [List.cons_append, cacheFind]
    by_cases hk : k = hd.1
    · rw [if_pos hk] at h ⊢
      exact h
    · rw [if_neg hk] at h ⊢
      exact ih h

theorem cacheFind_append_of_none (c d : Cache) (k : Nat)
    (h : cacheFind c k = none) : cacheFind (c ++ d) k = cacheFind d k := by
  induction c with
  | nil => rfl
  | cons hd tl ih =>
    rw [cacheFind] at h
    rw [List.cons_append, cacheFind]
    by_cases hk : k = hd.1
    · rw [if_pos hk] at h
      exact absurd h (by simp)
    · rw [if_neg hk] at h ⊢
      exact ih h

theorem cacheFind_insertSorted (c : Cache) (k : Nat) (e : CacheEntry) (k2 : Nat) :
    cacheFind (insertSorted c k e) k2 = if k2 = k then some e else cacheFind c k2 := by
  induction c with
  | nil =>
    by_cases hk : k2 = k <;> simp [insertSorted, cacheFind, hk]
  | cons hd tl ih =>
    obtain ⟨a, ev⟩ := hd
    by_cases h1 : k < a
    · by_cases hk : k2 = k <;> simp [insertSorted, cacheFind, h1, hk]
    · by_cases h2 : k = a
      · by_cases hk : k2 = k
        · simp [insertSorted, cacheFind, h1, h2, hk]
        · have hka : ¬ k2 = a := fun hcon => hk (hcon.trans h2.symm)
          simp [insertSorted, cacheFind, h1, h2, hk, hka]
      · by_cases hka : k2 = a
        · have hk : ¬ k2 = k := fun hcon => h2 (hcon.symm.trans hka)
          have h2s : ¬ a = k := fun hcon => h2 hcon.symm
          simp [insertSorted, cacheFind, h1, h2, hk, hka, h2s]
        · simp [insertSorted, cacheFind, h1, h2, hka, ih]

theorem insertSorted_length_of_none (c : Cache) (k : Nat) (e : CacheEntry)
    (h : cacheFind c k = none) : (insertSorted c k e).length = c.length + 1 := by
  induction c with
  | nil => rfl
  | cons hd tl ih =>
    rw [cacheFind] at h
    by_cases hk : k = hd.1
    · rw [if_pos hk] at h
      exact absurd h (by simp)
    · rw [if_neg hk] at h
      rw [insertSorted]
      by_cases h1 : k < hd.1
      · rw [if_pos h1]
        simp
      · rw [if_neg h1, if_neg hk]
        simp [ih h]

theorem expectedCache_length (S : List Nat) (B n : Nat) :
    (expectedCache S B n).length = n := by
  simp [expectedCache]

theorem expectedCache_keys_lt (S : List Nat) (B n : Nat) :
    ∀ p ∈ expectedCache S B n, p.1 < n := by
  intro p hp
  rcases List.mem_map.mp hp with ⟨k, hk, rfl⟩
  simpa using List.mem_range.mp hk

theorem cacheFind_expectedCache (S : List Nat) (B n k : Nat) :
    cacheFind (expectedCache S B n) k
      = if k < n then some (expectedEntry S B k) else none := by
  induction n with
  | zero => simp [expectedCache, cacheFind]
  | succ n ih =>
    have hsplit : expectedCache S B (n + 1)
        = expectedCache S B n ++ [(n, expectedEntry S B n)] := by
      simp [expectedCache, List.range_succ]
    rw [hsplit]
    by_cases hk : k < n
    · have h1 : cacheFind (expectedCache S B n) k = some (expectedEntry S B k) := by
        rw [ih, if_pos hk]
      rw [cacheFind_append_of_some _ _ _ _ h1, if_pos (by omega)]
    · have h1 : cacheFind (expectedCache S B n) k = none := by
        rw [ih, if_neg hk]
      rw [cacheFind_append_of_none _ _ _ h1]
      by_cases hk2 : k = n
      · subst hk2
        rw [cacheFind, if_pos rfl, if_pos (by omega)]
      · rw [cacheFind, if_neg hk2, cacheFind, if_neg (by omega)]

/-- Fetch preserves the reachable-state invariant, advances the fetch
counter by one, and leaves the block size and the source descriptor
untouched. -/
theorem fetch_inv (S : List Nat) (b : SrcBuffer) (h : Inv S b) :
    Inv S b.fetch ∧ b.fetch.block_offset = b.block_offset + 1 ∧
    b.fetch.block_len = b.block_len ∧ b.fetch.src = b.src ∧
    b.fetch.cache = expectedCache S b.block_len (b.block_offset + 1) := by
  obtain ⟨hread, heof, hcache, hrl⟩ := h
  have hlen : b.cache.length = b.block_offset := by
    rw [hcache, expectedCache_length]
  have hcond : ¬ (b.cache.length = b.block_offset + 1) := by omega
  have hreadlen : b.read.length = S.length - b.block_offset * b.block_len := by
    rw [hread, List.length_drop]
  have hfl := fillLoop_spec b.read (List.replicate b.block_len 0)
  simp only [List.length_replicate] at hfl
  have hkeys : ∀ p ∈ expectedCache S b.block_len b.block_offset, p.1 < b.block_offset :=
    expectedCache_keys_lt S b.block_len b.block_offset
  have hentry : (⟨min b.block_len b.read.length,
        b.read.take b.block_len
          ++ (List.replicate b.block_len 0).drop (min b.block_len b.read.length)⟩
      : CacheEntry) = expectedEntry S b.block_len b.block_offset := by
    rw [expectedEntry]
    rw [hreadlen, hread, List.drop_replicate]
  have hcache2 : insertSorted b.cache b.block_offset
        (expectedEntry S b.block_len b.block_offset)
      = expectedCache S b.block_len (b.block_offset + 1) := by
    rw [hcache, insertSorted_of_lt _ _ _ hkeys]
    simp [expectedCache, List.range_succ]
  have hread2 : b.read.drop b.block_len
      = S.drop ((b.block_offset + 1) * b.block_len) := by
    rw [hread, List.drop_drop, Nat.succ_mul]
  have heof2 : (b.eof_known || decide (b.read.length < b.block_len))
      = decide (S.length < (b.block_offset + 1) * b.block_len) := by
    rw [heof, hreadlen, ← Bool.decide_or, Nat.succ_mul]
    apply decide_eq_decide.mpr
    have hM := Nat.le_total S.length (b.block_offset * b.block_len)
    omega
  have hfetch : b.fetch =
      { b with
        read := b.read.drop b.block_len
        eof_known := b.eof_known || decide (b.read.length < b.block_len)
        cache := insertSorted b.cache b.block_offset
          ⟨min b.block_len b.read.length,
           b.read.take b.block_len
             ++ (List.replicate b.block_len 0).drop (min b.block_len b.read.length)⟩
        block_offset := b.block_offset + 1 } := by
    simp only [SrcBuffer.fetch, if_neg hcond, List.length_replicate, hfl]
  have hcacheAll : b.fetch.cache = expectedCache S b.block_len (b.block_offset + 1) := by
    rw [hfetch]
    show insertSorted _ _ _ = _
    rw [hentry, hcache2]
  refine ⟨⟨?_, ?_, ?_, ?_⟩, ?_, ?_, ?_, hcacheAll⟩
  · rw [hfetch]
    show b.read.drop b.block_len = _
    rw [hread2]
  · rw [hfetch]
    show (b.eof_known || decide (b.read.length < b.block_len)) = _
    rw [heof2]
  · rw [hcacheAll, hfetch]
  · rw [hfetch]
    exact hrl
  · rw [hfetch]
  · rw [hfetch]
  · rw [hfetch]

/-- Resolving an already-cached block performs no fetch and returns the
expected entry. -/
theorem getblkLoop_cached (S : List Nat) (b : SrcBuffer) (blkno fuel : Nat)
    (h : Inv S b) (hlt : blkno < b.block_offset) (hf : 1 ≤ fuel) :
    SrcBuffer.getblkLoop fuel b blkno
      = .ok (b, expectedEntry S b.block_len blkno, 0) := by
  obtain ⟨hread, heof, hcache, hrl⟩ := h
  rcases fuel with _ | fuel
  · omega
  have hfind : cacheFind b.cache blkno = some (expectedEntry S b.block_len blkno) := by
    rw [hcache, cacheFind_expectedCache, if_pos hlt]
  simp only [SrcBuffer.getblkLoop, hfind]

/-- Resolving a not-yet-fetched block fetches forward one block at a time:
exactly `blkno + 1 - block_offset` fetches happen, the invariant is
preserved, and the loop lands on the expected entry. -/
theorem getblkLoop_ok (S : List Nat) : ∀ (fuel : Nat) (b : SrcBuffer) (blkno : Nat),
    Inv S b → b.block_offset ≤ blkno → blkno + 1 - b.block_offset + 1 ≤ fuel →
    ∃ b2, SrcBuffer.getblkLoop fuel b blkno
        = .ok (b2, expectedEntry S b.block_len blkno, blkno + 1 - b.block_offset) ∧
      Inv S b2 ∧ b2.block_offset = blkno + 1 ∧ b2.block_len = b.block_len ∧
      b2.src = b.src := by
  intro fuel
  induction fuel with
  | zero =>
    intro b blkno h hle hf
    omega
  | succ fuel ih =>
    intro b blkno h hle hf
    obtain ⟨hread, heof, hcache, hrl⟩ := h
    have hnone : cacheFind b.cache blkno = none := by
      rw [hcache, cacheFind_expectedCache, if_neg (by omega)]
    obtain ⟨hInv2, hbo2, hbl2, hsrc2, hcache2⟩ :=
      fetch_inv S b ⟨hread, heof, hcache, hrl⟩
    by_cases hcase : blkno < b.fetch.block_offset
    · have hblk : blkno = b.block_offset := by omega
      have hfind2 : cacheFind b.fetch.cache blkno
          = some (expectedEntry S b.block_len blkno) := by
        rw [hcache2, cacheFind_expectedCache, if_pos (by omega)]
      rcases fuel with _ | fuel
      · omega
      refine ⟨b.fetch, ?_, hInv2, by omega, hbl2, hsrc2⟩
      simp only [SrcBuffer.getblkLoop, hnone, if_neg (by omega : ¬ blkno < b.block_offset),
        hfind2]
      have hcount : blkno + 1 - b.block_offset = 1 := by omega
      rw [hcount]
    · have hle2 : b.fetch.block_offset ≤ blkno := by omega
      have hf2 : blkno + 1 - b.fetch.block_offset + 1 ≤ fuel := by omega
      obtain ⟨b2, heq, hI, hb2o, hb2l, hb2s⟩ := ih b.fetch blkno hInv2 hle2 hf2
      refine ⟨b2, ?_, hI, hb2o, by rw [hb2l, hbl2], by rw [hb2s, hsrc2]⟩
      simp only [SrcBuffer.getblkLoop, hnone, if_neg (by omega : ¬ blkno < b.block_offset),
        heq]
      have hcount : blkno + 1 - b.fetch.block_offset + 1 = blkno + 1 - b.block_offset := by
        omega
      rw [hbl2, hcount]

theorem expectedEntry_len (S : List Nat) (B k : Nat) :
    (expectedEntry S B k).len = ((S.drop (k * B)).take B).length := by
  simp only [expectedEntry]
  rw [List.length_take, List.length_drop]

theorem expectedEntry_buf_take (S : List Nat) (B k : Nat) :
    (expectedEntry S B k).buf.take (expectedEntry S B k).len
      = (S.drop (k * B)).take B := by
  have hl : ((S.drop (k * B)).take B).length = min B (S.length - k * B) := by
    rw [List.length_take, List.length_drop]
  simp only [expectedEntry]
  rw [List.take_left' hl]

/-- One getblk call from any reachable cache state: it succeeds, triggers
no fetch on a cached index and `getblkno + 1 - block_offset` fetches
otherwise, and afterwards the descriptor presents exactly the bytes of the
requested block, with their true length. -/
theorem getblk_run (S : List Nat) (b : SrcBuffer) (h : Inv S b) :
    ∃ b2 n, SrcBuffer.getblk b = .ok (b2, n) ∧
      n = (if b.src.getblkno < b.block_offset then 0
        else b.src.getblkno + 1 - b.block_offset) ∧
      b2.src.curblkno = b.src.getblkno ∧
      b2.src.curblk = (S.drop (b.src.getblkno * b.block_len)).take b.block_len ∧
      b2.src.onblk
        = ((S.drop (b.src.getblkno * b.block_len)).take b.block_len).length := by
  by_cases hck : b.src.getblkno < b.block_offset
  · have hloop := getblkLoop_cached S b b.src.getblkno (b.src.getblkno + 2) h hck
      (by omega)
    have hres : SrcBuffer.getblk b = .ok
        ({ b with src :=
            { b.src with
              curblkno := b.src.getblkno
              curblk := (expectedEntry S b.block_len b.src.getblkno).buf.take
                (expectedEntry S b.block_len b.src.getblkno).len
              onblk := (expectedEntry S b.block_len b.src.getblkno).len
              eof_known := b.eof_known
              max_blkno := if b.eof_known = false then b.src.getblkno
                else b.block_offset - 1
              onlastblk := if b.eof_known = false
                then (expectedEntry S b.block_len b.src.getblkno).len
                else b.read_len % b.src.blksize } }, 0) := by
      simp only [SrcBuffer.getblk, hloop]
    refine ⟨_, _, hres, ?_, rfl, ?_, ?_⟩
    · rw [if_pos hck]
    · show (expectedEntry S b.block_len b.src.getblkno).buf.take
        (expectedEntry S b.block_len b.src.getblkno).len = _
      rw [expectedEntry_buf_take]
    · show (expectedEntry S b.block_len b.src.getblkno).len = _
      rw [expectedEntry_len]
  · obtain ⟨b1, hloop, hI1, hbo1, hbl1, hsrc1⟩ := getblkLoop_ok S
      (b.src.getblkno + 2) b b.src.getblkno h (by omega) (by omega)
    have hres : SrcBuffer.getblk b = .ok
        ({ b1 with src :=
            { b1.src with
              curblkno := b1.src.getblkno
              curblk := (expectedEntry S b.block_len b.src.getblkno).buf.take
                (expectedEntry S b.block_len b.src.getblkno).len
              onblk := (expectedEntry S b.block_len b.src.getblkno).len
              eof_known := b1.eof_known
              max_blkno := if b1.eof_known = false then b1.src.getblkno
                else b1.block_offset - 1
              onlastblk := if b1.eof_known = false
                then (expectedEntry S b.block_len b.src.getblkno).len
                else b1.read_len % b1.src.blksize } },
          b.src.getblkno + 1 - b.block_offset) := by
      simp only [SrcBuffer.getblk, hloop]
    refine ⟨_, _, hres, ?_, ?_, ?_, ?_⟩
    · rw [if_neg hck]
    · show b1.src.getblkno = b.src.getblkno
      rw [hsrc1]
    · show (expectedEntry S b.block_len b.src.getblkno).buf.take
        (expectedEntry S b.block_len b.src.getblkno).len = _
      rw [expectedEntry_buf_take]
    · show (expectedEntry S b.block_len b.src.getblkno).len = _
      rw [expectedEntry_len]

theorem cacheFind_none_of_keys_gt (c : Cache) (k : Nat)
    (h : ∀ p ∈ c, k < p.1) : cacheFind c k = none := by
  induction c with
  | nil => rfl
  | cons hd tl ih =>
    obtain ⟨a, ev⟩ := hd
    have ha : k < a := h (a, ev) (List.mem_cons_self _ _)
    rw [cacheFind, if_neg (by omega)]
    exact ih (fun p hp => h p (List.mem_cons_of_mem _ hp))

/-! Claim theorems. -/

/-- C2: from any reachable cache state, resolving the requested block index
succeeds, and afterwards the source descriptor describes exactly that
block: curblkno equals the requested index, and curblk / onblk are exactly
the bytes of the source stream belonging to that block together with their
true count (in particular the short length on the final block). -/
theorem claim_C2_getblk_descriptor (S : List Nat) (b : SrcBuffer) (h : Inv S b) :
    ∃ b2 n, SrcBuffer.getblk b = .ok (b2, n) ∧
      b2.src.curblkno = b.src.getblkno ∧
      b2.src.curblk = (S.drop (b.src.getblkno * b.block_len)).take b.block_len ∧
      b2.src.onblk
        = ((S.drop (b.src.getblkno * b.block_len)).take b.block_len).length := by
  obtain ⟨b2, n, hres, _, h1, h2, h3⟩ := getblk_run S b h
  exact ⟨b2, n, hres, h1, h2, h3⟩

/-- Witness for C2: over source [1, 2, 3] with block size 2, requesting
block 1 yields the short final block [3] of length 1. -/
theorem claim_C2_witness :
    Inv [1, 2, 3] srcBufExReq1 ∧
    (∃ b2 n, SrcBuffer.getblk srcBufExReq1 = .ok (b2, n) ∧
      b2.src.curblkno = srcBufExReq1.src.getblkno ∧
      b2.src.curblk = (([1, 2, 3] : List Nat).drop
        (srcBufExReq1.src.getblkno * srcBufExReq1.block_len)).take srcBufExReq1.block_len ∧
      b2.src.onblk = ((([1, 2, 3] : List Nat).drop
        (srcBufExReq1.src.getblkno * srcBufExReq1.block_len)).take
          srcBufExReq1.block_len).length) :=
  ⟨⟨rfl, rfl, rfl, rfl⟩,
   claim_C2_getblk_descriptor [1, 2, 3] srcBufExReq1 ⟨rfl, rfl, rfl, rfl⟩⟩

/-- C7: from any reachable cache state, resolving a block index `k` with
`k ≥ next_fetch_index` triggers exactly `k - next_fetch_index + 1` block
fetches from the source reader, while resolving an already-cached index
triggers none. -/
theorem claim_C7_fetch_count (S : List Nat) (b : SrcBuffer) (h : Inv S b) :
    (b.src.getblkno < b.block_offset →
      ∃ b2, SrcBuffer.getblk b = .ok (b2, 0)) ∧
    (b.block_offset ≤ b.src.getblkno →
      ∃ b2, SrcBuffer.getblk b
        = .ok (b2, b.src.getblkno + 1 - b.block_offset)) := by
  obtain ⟨b2, n, hres, hn, _, _, _⟩ := getblk_run S b h
  constructor
  · intro hlt
    refine ⟨b2, ?_⟩
    rw [hres, hn, if_pos hlt]
  · intro hge
    refine ⟨b2, ?_⟩
    rw [hres, hn, if_neg (by omega)]

/-- Witness for C7: on a fresh cache (no block fetched yet), resolving
block 1 triggers 1 - 0 + 1 = 2 fetches. -/
theorem claim_C7_witness :
    Inv [1, 2, 3] srcBufExReq1 ∧
    srcBufExReq1.block_offset ≤ srcBufExReq1.src.getblkno ∧
    (∃ b2, SrcBuffer.getblk srcBufExReq1 = .ok (b2, 2)) :=
  ⟨⟨rfl, rfl, rfl, rfl⟩, by decide,
   (claim_C7_fetch_count [1, 2, 3] srcBufExReq1 ⟨rfl, rfl, rfl, rfl⟩).2 (by decide)⟩

/-- C9: from any reachable cache state, the cache holds exactly
block_offset entries, so the eviction condition of fetch (cache size equal
to blocks fetched plus one) never holds, the invariant is preserved by the
next fetch, and every cached block stays resident with unchanged
contents. -/
theorem claim_C9_no_eviction (S : List Nat) (b : SrcBuffer) (h : Inv S b) :
    b.cache.length = b.block_offset ∧
    ¬ b.cache.length = b.block_offset + 1 ∧
    b.fetch.cache.length = b.fetch.block_offset ∧
    Inv S b.fetch ∧
    (∀ k e, cacheFind b.cache k = some e → cacheFind b.fetch.cache k = some e) := by
  obtain ⟨hread, heof, hcache, hrl⟩ := h
  have hlen : b.cache.length = b.block_offset := by
    rw [hcache, expectedCache_length]
  obtain ⟨hI, hbo, hbl, hsrc, hc⟩ := fetch_inv S b ⟨hread, heof, hcache, hrl⟩
  refine ⟨hlen, by omega, ?_, hI, ?_⟩
  · rw [hc, expectedCache_length, hbo]
  · intro k e hfind
    rw [hcache, cacheFind_expectedCache] at hfind
    by_cases hk : k < b.block_offset
    · rw [if_pos hk] at hfind
      rw [hc, cacheFind_expectedCache, if_pos (by omega)]
      exact hfind
    · rw [if_neg hk] at hfind
      exact absurd hfind (by simp)

/-- Witness for C9 at the reachable state with one block fetched. -/
theorem claim_C9_witness :
    Inv [1, 2, 3] srcBufEx.fetch ∧
    (srcBufEx.fetch.cache.length = srcBufEx.fetch.block_offset ∧
     ¬ srcBufEx.fetch.cache.length = srcBufEx.fetch.block_offset + 1 ∧
     srcBufEx.fetch.fetch.cache.length = srcBufEx.fetch.fetch.block_offset ∧
     Inv [1, 2, 3] srcBufEx.fetch.fetch ∧
     (∀ k e, cacheFind srcBufEx.fetch.cache k = some e →
       cacheFind srcBufEx.fetch.fetch.cache k = some e)) :=
  ⟨(fetch_inv [1, 2, 3] srcBufEx ⟨rfl, rfl, rfl, rfl⟩).1,
   claim_C9_no_eviction [1, 2, 3] srcBufEx.fetch
     (fetch_inv [1, 2, 3] srcBufEx ⟨rfl, rfl, rfl, rfl⟩).1⟩

/-- C6: when the engine requests a block index that is not cached and lies
below the fetch counter (hence below the lowest retained index), getblk
aborts with the invalid-blkno fault instead of returning block bytes, and
the pump run aborts as a whole with no I/O action. -/
theorem claim_C6_low_index_fatal (st : ProcessState) (fuel : Nat)
    (sc : List Signal) (input out : List Nat)
    (h1 : cacheFind st.src_buf.cache st.src_buf.src.getblkno = none)
    (h2 : st.src_buf.src.getblkno < st.src_buf.block_offset) :
    SrcBuffer.getblk st.src_buf = .error .invalidBlkno ∧
    processLoop scriptStep (fuel + 1) (.XD3_GETSRCBLK :: sc) st input out
      = some (.error "invalid blkno", []) := by
  have hloop : SrcBuffer.getblkLoop (st.src_buf.src.getblkno + 2) st.src_buf
      st.src_buf.src.getblkno = .error .invalidBlkno := by
    simp only [SrcBuffer.getblkLoop, h1, if_pos h2]
  have hgb : SrcBuffer.getblk st.src_buf = .error .invalidBlkno := by
    simp only [SrcBuffer.getblk, hloop]
  refine ⟨hgb, ?_⟩
  simp [processLoop, scriptStep, hgb]

/-- Witness for C6: block_offset is 1 but the cache does not hold the
requested block 0. -/
theorem claim_C6_witness :
    cacheFind pstGap.src_buf.cache pstGap.src_buf.src.getblkno = none ∧
    pstGap.src_buf.src.getblkno < pstGap.src_buf.block_offset ∧
    (SrcBuffer.getblk pstGap.src_buf = .error .invalidBlkno ∧
     processLoop scriptStep 1 [.XD3_GETSRCBLK] pstGap [] []
       = some (.error "invalid blkno", [])) :=
  ⟨rfl, by decide, claim_C6_low_index_fatal pstGap 0 [] [] [] rfl (by decide)⟩

/-- C8: the buffer policy of fetch. When the cache holds exactly
block_offset + 1 entries, the entry with the lowest block index is removed
and its buffer is recycled: the new block is read into it (the bytes past
the fill still show the evicted buffer contents) and the cache size stays
constant. Otherwise a freshly allocated zeroed block-sized buffer is used
and the cache grows by one entry. -/
theorem claim_C8_buffer_reuse (b : SrcBuffer)
    (hs : List.Pairwise (fun p q => p.1 < q.1) b.cache)
    (hbo : cacheFind b.cache b.block_offset = none) :
    (b.cache.length = b.block_offset + 1 →
      ∀ k0 e0 rest, b.cache = (k0, e0) :: rest →
        (∀ p ∈ b.cache, k0 ≤ p.1) ∧
        cacheFind b.fetch.cache k0 = none ∧
        cacheFind b.fetch.cache b.block_offset
          = some ⟨min e0.buf.length b.read.length,
              b.read.take e0.buf.length
                ++ e0.buf.drop (min e0.buf.length b.read.length)⟩ ∧
        b.fetch.cache.length = b.cache.length) ∧
    (¬ b.cache.length = b.block_offset + 1 →
      cacheFind b.fetch.cache b.block_offset
        = some ⟨min b.block_len b.read.length,
            b.read.take b.block_len
              ++ List.replicate (b.block_len - min b.block_len b.read.length) 0⟩ ∧
      b.fetch.cache.length = b.cache.length + 1) := by
  constructor
  · intro hcond k0 e0 rest hhead
    have hfetch : b.fetch =
        { b with
          read := b.read.drop e0.buf.length
          eof_known := b.eof_known || decide (b.read.length < e0.buf.length)
          cache := insertSorted rest b.block_offset
            ⟨min e0.buf.length b.read.length,
             b.read.take e0.buf.length
               ++ e0.buf.drop (min e0.buf.length b.read.length)⟩
          block_offset := b.block_offset + 1 } := by
      have hcond2 : ((k0, e0) :: rest).length = b.block_offset + 1 := hhead ▸ hcond
      simp only [SrcBuffer.fetch, hhead, if_pos hcond2, evictMin,
        fillLoop_spec]
    have hfindk0 : cacheFind b.cache k0 = some e0 := by
      rw [hhead, cacheFind, if_pos rfl]
    have hk0bo : ¬ k0 = b.block_offset := by
      intro hcon
      rw [hcon, hbo] at hfindk0
      exact Option.noConfusion hfindk0
    have hrest : ∀ p ∈ rest, k0 < p.1 := by
      have := hhead ▸ hs
      exact (List.pairwise_cons.mp this).1
    have hrestbo : cacheFind rest b.block_offset = none := by
      have := hhead ▸ hbo
      rw [cacheFind] at this
      rwa [if_neg (fun hcon => hk0bo hcon.symm)] at this
    refine ⟨?_, ?_, ?_, ?_⟩
    · intro p hp
      rw [hhead] at hp
      rcases List.mem_cons.mp hp with hp1 | hp2
      · rw [hp1]
      · exact Nat.le_of_lt (hrest p hp2)
    · rw [hfetch]
      show cacheFind (insertSorted rest b.block_offset _) k0 = none
      rw [cacheFind_insertSorted, if_neg hk0bo]
      exact cacheFind_none_of_keys_gt rest k0 hrest
    · rw [hfetch]
      show cacheFind (insertSorted rest b.block_offset _) b.block_offset = _
      rw [cacheFind_insertSorted, if_pos rfl]
    · rw [hfetch]
      show (insertSorted rest b.block_offset _).length = b.cache.length
      rw [insertSorted_length_of_none _ _ _ hrestbo, hhead]
      rfl
  · intro hcond
    have hfetch : b.fetch =
        { b with
          read := b.read.drop b.block_len
          eof_known := b.eof_known || decide (b.read.length < b.block_len)
          cache := insertSorted b.cache b.block_offset
            ⟨min b.block_len b.read.length,
             b.read.take b.block_len
               ++ (List.replicate b.block_len 0).drop (min b.block_len b.read.length)⟩
          block_offset := b.block_offset + 1 } := by
      have hfl := fillLoop_spec b.read (List.replicate b.block_len 0)
      simp only [List.length_replicate] at hfl
      simp only [SrcBuffer.fetch, if_neg hcond, List.length_replicate, hfl]
    constructor
    · rw [hfetch]
      show cacheFind (insertSorted b.cache b.block_offset _) b.block_offset = _
      rw [cacheFind_insertSorted, if_pos rfl, List.drop_replicate]
    · rw [hfetch]
      show (insertSorted b.cache b.block_offset _).length = b.cache.length + 1
      rw [insertSorted_length_of_none _ _ _ hbo]

/-- Witness for C8, recycling branch: with 3 = 2 + 1 entries cached, the
lowest entry (block 0, buffer [7, 8]) is evicted, block 2 is read into its
buffer giving [1, 2], and the cache size stays 3. -/
theorem claim_C8_witness :
    List.Pairwise (fun p q => p.1 < q.1) srcBufFull.cache ∧
    cacheFind srcBufFull.cache srcBufFull.block_offset = none ∧
    srcBufFull.cache.length = srcBufFull.block_offset + 1 ∧
    ((∀ p ∈ srcBufFull.cache, 0 ≤ p.1) ∧
     cacheFind srcBufFull.fetch.cache 0 = none ∧
     cacheFind srcBufFull.fetch.cache srcBufFull.block_offset
       = some ⟨2, [1, 2]⟩ ∧
     srcBufFull.fetch.cache.length = srcBufFull.cache.length) :=
  ⟨by decide, by decide, by decide,
   (claim_C8_buffer_reuse srcBufFull (by decide) (by decide)).1 (by decide)
     0 ⟨2, [7, 8]⟩ [(5, ⟨2, [1, 2]⟩), (6, ⟨0, [0, 0]⟩)] rfl⟩

/-- C3 against the code: over the 3-byte source [1, 2, 3] with block size
2, resolving block 1 observes end of stream (eof_known becomes true) and
reports max_blkno = 1 = ceil(3/2) - 1, but onlastblk comes out 0 instead
of 3 mod 2 = 1: getblk computes onlastblk from the read_len field, which
is initialised to 0 and never updated anywhere in the code. -/
theorem claim_C3_onlastblk_zero :
    (SrcBuffer.getblk srcBufExReq1).map
        (fun p => (p.fst.src.eof_known, p.fst.src.max_blkno,
          p.fst.src.onlastblk, p.snd))
      = .ok (true, 1, 0, 2) ∧
    (3 : Nat) % 2 = 1 := by
  constructor
  · rfl
  · rfl

/-- C5: whenever the engine advance returns one of the terminal error
signals, the pump aborts at once: the result is an error whose message is
the Debug identity of that signal, and no I/O action is performed at or
after the error signal; the rest of the engine script is never
consulted. -/
theorem claim_C5_error_signal_aborts (e : Signal) (he : e.isErr = true)
    (fuel : Nat) (sc : List Signal) (st : ProcessState) (input out : List Nat) :
    processLoop scriptStep (fuel + 1) (e :: sc) st input out
      = some (.error e.debugName, []) := by
  cases e <;> simp_all [processLoop, scriptStep, Signal.debugName, Signal.isErr]

/-- Witness for C5 at the XD3_INTERNAL signal. -/
theorem claim_C5_witness :
    Signal.isErr .XD3_INTERNAL = true ∧
    processLoop scriptStep 1 [.XD3_INTERNAL] pstEx [] [9]
      = some (.error "XD3_INTERNAL", []) :=
  ⟨rfl, claim_C5_error_signal_aborts .XD3_INTERNAL rfl 0 [] pstEx [] [9]⟩

/-- C4: reaction of the pump to a NeedInput signal. If end-of-target was
already observed the loop terminates successfully (flushing the sink);
otherwise it performs one read_input step, which reads at most one
window's worth of target bytes, and a zero-length read sets the engine
flush flag and the local eof flag, after which the very next NeedInput
signal terminates the loop. -/
theorem claim_C4_need_input (fuel : Nat) (sc : List Signal) (st : ProcessState)
    (input out : List Nat) :
    (st.eof = true →
      processLoop scriptStep (fuel + 1) (.XD3_INPUT :: sc) st input out
        = some (.ok out, [.flushOut])) ∧
    (st.eof = false →
      (processLoop scriptStep (fuel + 1) (.XD3_INPUT :: sc) st input out
        = mapAction (.readTarget (min st.input_buf.length input.length))
            (processLoop scriptStep fuel sc (st.read_input input).fst
              (st.read_input input).snd out)) ∧
      (min st.input_buf.length input.length = 0 →
        (st.read_input input).fst.stream.flagsFlush = true ∧
        (st.read_input input).fst.eof = true ∧
        ∀ (f2 : Nat) (sc2 : List Signal) (in2 out2 : List Nat),
          processLoop scriptStep (f2 + 1) (.XD3_INPUT :: sc2)
            (st.read_input input).fst in2 out2
            = some (.ok out2, [.flushOut]))) := by
  constructor
  · intro he
    simp [processLoop, scriptStep, he]
  · intro he
    constructor
    · simp [processLoop, scriptStep, ProcessState.read_input, he]
    · intro h0
      have hflush : (st.read_input input).fst.stream.flagsFlush = true := by
        simp [ProcessState.read_input, h0]
      have heof2 : (st.read_input input).fst.eof = true := by
        simp [ProcessState.read_input, h0]
      refine ⟨hflush, heof2, ?_⟩
      intro f2 sc2 in2 out2
      simp [processLoop, scriptStep, heof2]

/-- Witness for C4, termination branch: with eof already observed, a
NeedInput signal ends the run successfully with only the final flush. -/
theorem claim_C4_witness :
    pstExEof.eof = true ∧
    processLoop scriptStep 1 [.XD3_INPUT] pstExEof [] [7]
      = some (.ok [7], [.flushOut]) :=
  ⟨rfl, (claim_C4_need_input 0 [] pstExEof [] [7]).1 rfl⟩

/-! One-iteration unfolding lemmas for the pump loop, used to trace runs
with the modelled engine. -/

theorem processLoop_input_eof {E : Type}
    (step : E → StreamState → Signal × E × StreamState) (fuel : Nat) (e : E)
    (st : ProcessState) (input out : List Nat) (e2 : E) (s2 : StreamState)
    (hstep : step e st.stream = (.XD3_INPUT, e2, s2))
    (heof : st.eof = true) :
    processLoop step (fuel + 1) e st input out = some (.ok out, [.flushOut]) := by
  simp only [processLoop, hstep]
  simp [heof]

theorem processLoop_input_step {E : Type}
    (step : E → StreamState → Signal × E × StreamState) (fuel : Nat) (e : E)
    (st st2 : ProcessState) (input out : List Nat) (e2 : E) (s2 : StreamState)
    (hstep : step e st.stream = (.XD3_INPUT, e2, s2))
    (hst2 : st2 = { st with stream := s2 })
    (heof : st.eof = false) :
    processLoop step (fuel + 1) e st input out
      = mapAction (.readTarget (st2.read_input input).fst.stream.avail_in)
          (processLoop step fuel e2 (st2.read_input input).fst
            (st2.read_input input).snd out) := by
  subst hst2
  simp only [processLoop, hstep]
  simp [heof]

theorem processLoop_output_step {E : Type}
    (step : E → StreamState → Signal × E × StreamState) (fuel : Nat) (e : E)
    (st st2 : ProcessState) (input out : List Nat) (e2 : E) (s2 : StreamState)
    (hstep : step e st.stream = (.XD3_OUTPUT, e2, s2))
    (hst2 : st2 = { st with stream := s2 }) :
    processLoop step (fuel + 1) e st input out
      = mapAction (.writeOut (s2.next_out.take s2.avail_out))
          (processLoop step fuel e2 (st2.write_output out).fst input
            (st2.write_output out).snd) := by
  subst hst2
  simp only [processLoop, hstep]

/-- A run of the pump with the modelled copy engine on an exhausted target
reader: the first NeedInput reads zero bytes, marking eof; the next
NeedInput terminates. -/
theorem copy_run_nil (mode : ProcessMode) (st : ProcessState) (out : List Nat)
    (fuel : Nat) (heof : st.eof = false) (havail : st.stream.avail_in = 0)
    (hfuel : 2 ≤ fuel) :
    processLoop (engineAdvance mode) fuel () st [] out
      = some (.ok out, [.readTarget 0, .flushOut]) := by
  obtain ⟨f, rfl⟩ : ∃ f, fuel = f + 1 + 1 := ⟨fuel - 2, by omega⟩
  have hadv1 : engineAdvance mode () st.stream = (.XD3_INPUT, (), st.stream) := by
    simp [engineAdvance, havail]
  rw [processLoop_input_step (engineAdvance mode) (f + 1) () st st [] out ()
    st.stream hadv1 rfl heof]
  have hri : (st.read_input []).fst.eof = true := by
    simp [ProcessState.read_input]
  have havail2 : (st.read_input []).fst.stream.avail_in = 0 := by
    simp [ProcessState.read_input]
  have hadv2 : engineAdvance mode () (st.read_input []).fst.stream
      = (.XD3_INPUT, (), (st.read_input []).fst.stream) := by
    simp [engineAdvance, havail2]
  rw [processLoop_input_eof (engineAdvance mode) f () (st.read_input []).fst
    (st.read_input []).snd out () (st.read_input []).fst.stream hadv2 hri]
  rw [mapAction, havail2]

/-- One full window round of the pump with the modelled copy engine: a
NeedInput step reading min(window, remaining) target bytes followed by a
HaveOutput step writing those same bytes to the sink. -/
theorem copy_step (mode : ProcessMode) (f : Nat) (st : ProcessState)
    (T out : List Nat) (heof : st.eof = false)
    (havail : st.stream.avail_in = 0) (hTpos : 0 < T.length)
    (hbuf : 0 < st.input_buf.length) :
    ∃ st2 : ProcessState,
      processLoop (engineAdvance mode) (f + 1 + 1) () st T out
        = mapAction (.readTarget (min st.input_buf.length T.length))
            (mapAction (.writeOut (T.take (min st.input_buf.length T.length)))
              (processLoop (engineAdvance mode) f () st2
                (T.drop (min st.input_buf.length T.length))
                (out ++ T.take (min st.input_buf.length T.length)))) ∧
      st2.eof = false ∧ st2.stream.avail_in = 0 ∧
      st2.input_buf.length = st.input_buf.length := by
  have hnW : min st.input_buf.length T.length ≤ st.input_buf.length :=
    Nat.min_le_left _ _
  have hnT : min st.input_buf.length T.length ≤ T.length :=
    Nat.min_le_right _ _
  have hnpos : 0 < min st.input_buf.length T.length := by
    rcases Nat.le_total st.input_buf.length T.length with hm | hm
    · rw [Nat.min_eq_left hm]
      exact hbuf
    · rw [Nat.min_eq_right hm]
      exact hTpos
  set n := min st.input_buf.length T.length with hn
  have htakelen : (T.take n).length = n := by
    rw [List.length_take, Nat.min_eq_left hnT]
  have htake2 : (T.take n ++ st.input_buf.drop n).take n = T.take n :=
    List.take_left' htakelen
  have htake3 : ((T.take n ++ st.input_buf.drop n).take n).take n = T.take n := by
    rw [htake2, List.take_take, Nat.min_self]
  have hDlen : (T.take n ++ st.input_buf.drop n).length = st.input_buf.length := by
    rw [List.length_append, htakelen, List.length_drop]
    omega
  have hchain : processLoop (engineAdvance mode) (f + 1 + 1) () st T out
      = mapAction (.readTarget n)
          (mapAction (.writeOut (T.take n))
            (processLoop (engineAdvance mode) f ()
              ({ st with
                  stream := { st.stream with
                    next_in := T.take n ++ st.input_buf.drop n
                    avail_in := 0
                    next_out := (T.take n ++ st.input_buf.drop n).take n
                    avail_out := 0 }
                  input_buf := T.take n ++ st.input_buf.drop n })
              (T.drop n) (out ++ T.take n))) := by
    have hadv1 : engineAdvance mode () st.stream = (.XD3_INPUT, (), st.stream) := by
      simp [engineAdvance, havail]
    rw [processLoop_input_step (engineAdvance mode) (f + 1) () st st T out ()
      st.stream hadv1 rfl heof]
    have hri : st.read_input T =
        ({ st with
            stream := { st.stream with
              next_in := T.take n ++ st.input_buf.drop n
              avail_in := n }
            input_buf := T.take n ++ st.input_buf.drop n }, T.drop n) := by
      simp only [ProcessState.read_input, writeAt, List.take_zero, List.nil_append,
        Nat.zero_add, ← hn, htakelen]
      rw [if_neg (by omega), if_neg (by omega)]
    simp only [hri]
    have hadv2 : engineAdvance mode ()
        ({ st with
            stream := { st.stream with
              next_in := T.take n ++ st.input_buf.drop n
              avail_in := n }
            input_buf := T.take n ++ st.input_buf.drop n }
          : ProcessState).stream
        = (.XD3_OUTPUT, (),
           { st.stream with
             next_in := T.take n ++ st.input_buf.drop n
             avail_in := 0
             next_out := (T.take n ++ st.input_buf.drop n).take n
             avail_out := n }) := by
      simp only [engineAdvance]
      rw [if_neg (by omega)]
    rw [processLoop_output_step (engineAdvance mode) f ()
      ({ st with
          stream := { st.stream with
            next_in := T.take n ++ st.input_buf.drop n
            avail_in := n }
          input_buf := T.take n ++ st.input_buf.drop n })
      ({ st with
          stream := { st.stream with
            next_in := T.take n ++ st.input_buf.drop n
            avail_in := 0
            next_out := (T.take n ++ st.input_buf.drop n).take n
            avail_out := n }
          input_buf := T.take n ++ st.input_buf.drop n })
      (T.drop n) out ()
      ({ st.stream with
          next_in := T.take n ++ st.input_buf.drop n
          avail_in := 0
          next_out := (T.take n ++ st.input_buf.drop n).take n
          avail_out := n })
      hadv2 rfl]
    have hwo :
        ({ st with
            stream := { st.stream with
              next_in := T.take n ++ st.input_buf.drop n
              avail_in := 0
              next_out := (T.take n ++ st.input_buf.drop n).take n
              avail_out := n }
            input_buf := T.take n ++ st.input_buf.drop n }
          : ProcessState).write_output out
        = ({ st with
            stream := { st.stream with
              next_in := T.take n ++ st.input_buf.drop n
              avail_in := 0
              next_out := (T.take n ++ st.input_buf.drop n).take n
              avail_out := 0 }
            input_buf := T.take n ++ st.input_buf.drop n },
           out ++ T.take n) := by
      simp only [ProcessState.write_output, htake3]
    simp only [hwo, htake3]
  exact ⟨_, hchain, heof, rfl, hDlen⟩

/-- A run of the pump with the modelled copy engine: starting from a state
with no pending input and eof unseen, the whole target stream is pumped to
the sink, window by window. Fuel `2 * T.length + 2` always suffices. -/
theorem copy_run (mode : ProcessMode) (N : Nat) :
    ∀ (T : List Nat) (st : ProcessState) (out : List Nat) (fuel : Nat),
    T.length ≤ N → st.eof = false → st.stream.avail_in = 0 →
    0 < st.input_buf.length → 2 * T.length + 2 ≤ fuel →
    ∃ tr, processLoop (engineAdvance mode) fuel () st T out
      = some (.ok (out ++ T), tr) := by
  induction N with
  | zero =>
    intro T st out fuel hTN heof havail hbuf hfuel
    have hT : T = [] := List.length_eq_zero.mp (by omega)
    subst hT
    exact ⟨[.readTarget 0, .flushOut],
      by rw [copy_run_nil mode st out fuel heof havail (by omega), List.append_nil]⟩
  | succ N ih =>
    intro T st out fuel hTN heof havail hbuf hfuel
    by_cases hTe : T = []
    · subst hTe
      exact ⟨[.readTarget 0, .flushOut],
        by rw [copy_run_nil mode st out fuel heof havail (by omega), List.append_nil]⟩
    · have hTpos : 0 < T.length := List.length_pos.mpr hTe
      obtain ⟨f, rfl⟩ : ∃ f, fuel = f + 1 + 1 := ⟨fuel - 2, by omega⟩
      obtain ⟨st2, hchain, heof2, havail2, hlen2⟩ :=
        copy_step mode f st T out heof havail hTpos hbuf
      have hnT : min st.input_buf.length T.length ≤ T.length :=
        Nat.min_le_right _ _
      have hnpos : 0 < min st.input_buf.length T.length := by
        rcases Nat.le_total st.input_buf.length T.length with hm | hm
        · rw [Nat.min_eq_left hm]
          exact hbuf
        · rw [Nat.min_eq_right hm]
          exact hTpos
      obtain ⟨tr, htr⟩ := ih (T.drop (min st.input_buf.length T.length)) st2
        (out ++ T.take (min st.input_buf.length T.length)) f
        (by rw [List.length_drop]; omega)
        heof2 havail2 (by rw [hlen2]; exact hbuf)
        (by rw [List.length_drop]; omega)
      refine ⟨.readTarget (min st.input_buf.length T.length)
        :: .writeOut (T.take (min st.input_buf.length T.length)) :: tr, ?_⟩
      rw [hchain, htr]
      simp only [mapAction]
      rw [List.append_assoc, List.take_append_drop]

/-- C1: round trip. Encoding a target stream T against a source stream S
and then decoding the result against the same S reproduces T exactly. The
codec engine itself is external and modelled from the spec as the minimal
engine satisfying its interface (a copy codec); the theorem exercises the
whole driver pipeline (windowed reads, output draining, eof and flush
handling) on both directions. -/
theorem claim_C1_round_trip (cfg : Xd3Config) (T S : List Nat)
    (hw : 0 < cfg.winsize) :
    ∃ D trE trD,
      process cfg .Encode (2 * T.length + 2) T S = some (.ok D, trE) ∧
      process cfg .Decode (2 * D.length + 2) D S = some (.ok T, trD) := by
  have hbuf : 0 < (ProcessState.new cfg S).input_buf.length := by
    simp only [ProcessState.new, List.length_replicate]
    exact hw
  obtain ⟨trE, hE⟩ := copy_run .Encode T.length T (ProcessState.new cfg S) []
    (2 * T.length + 2) (le_refl _) rfl rfl hbuf (le_refl _)
  obtain ⟨trD, hD⟩ := copy_run .Decode T.length T (ProcessState.new cfg S) []
    (2 * T.length + 2) (le_refl _) rfl rfl hbuf (le_refl _)
  rw [List.nil_append] at hE hD
  exact ⟨T, trE, trD, hE, hD⟩

/-- Witness for C1 with a 3-byte target and a window of 2 bytes. -/
theorem claim_C1_witness :
    0 < cfgEx.winsize ∧
    (∃ D trE trD,
      process cfgEx .Encode (2 * ([3, 1, 4] : List Nat).length + 2) [3, 1, 4] [9]
        = some (.ok D, trE) ∧
      process cfgEx .Decode (2 * D.length + 2) D [9]
        = some (.ok [3, 1, 4], trD)) :=
  ⟨by decide, claim_C1_round_trip cfgEx [3, 1, 4] [9] (by decide)⟩

/-! Equivalence of the thread-blocking and the suspend-capable variants:
each async operation erases to its synchronous counterpart. -/

theorem fetch_async_eq : SrcBuffer.fetch_async = SrcBuffer.fetch := rfl

theorem read_input_async_eq :
    ProcessState.read_input_async = ProcessState.read_input := rfl

theorem write_output_async_eq :
    ProcessState.write_output_async = ProcessState.write_output := rfl

theorem getblkLoop_async_eq (fuel : Nat) (b : SrcBuffer) (blkno : Nat) :
    SrcBuffer.getblkLoop_async fuel b blkno = SrcBuffer.getblkLoop fuel b blkno := by
  induction fuel generalizing b with
  | zero => rfl
  | succ f ih =>
    simp only [SrcBuffer.getblkLoop_async, SrcBuffer.getblkLoop, fetch_async_eq, ih]

theorem getblk_async_eq (b : SrcBuffer) :
    SrcBuffer.getblk_async b = SrcBuffer.getblk b := by
  simp only [SrcBuffer.getblk_async, SrcBuffer.getblk, getblkLoop_async_eq]

theorem processLoop_async_eq {E : Type}
    (step : E → StreamState → Signal × E × StreamState) (fuel : Nat) (e : E)
    (st : ProcessState) (input out : List Nat) :
    processLoop_async step fuel e st input out
      = processLoop step fuel e st input out := by
  induction fuel generalizing e st input out with
  | zero => rfl
  | succ f ih =>
    simp only [processLoop_async, processLoop, read_input_async_eq,
      write_output_async_eq, getblk_async_eq, ih]

/-- C10: the thread-blocking pump (process) and the cooperatively
suspending pump (process_async) produce identical results on every
configuration, mode, fuel and pair of streams: the same output bytes, the
same success or error outcome, and the same I/O trace. -/
theorem claim_C10_sync_async_equiv (cfg : Xd3Config) (mode : ProcessMode)
    (fuel : Nat) (input src : List Nat) :
    process_async cfg mode fuel input src = process cfg mode fuel input src := by
  simp only [process, process_async, processLoop_async_eq]

end Xd3
